import Mathlib

/-!
# mini-scan subscriber: `processMessage` and the `scans` table

A shallow embedding of `cmd/subscriber/main.go`.

* Go strings are byte sequences (`GoString`).
* The body of a pubsub message is given as the JSON document it holds (`Json`), or `none`
  when the bytes are rejected by the JSON scanner; `Unmarshal` then follows what
  `encoding/json` does when it fills a `scanning.Scan`.
* `base64.StdEncoding` is embedded byte for byte (`EncodeToString`, `DecodeString`).
* The SQLite table `scans` is the list of its rows, oldest first; the one statement the
  program runs on it, `INSERT OR REPLACE`, either fails as a whole (`fault`) or removes
  the rows with the same primary key and appends the new row.
* `msg.Ack()` and `msg.Nack()` are recorded as the list of signals a call produced.
-/

namespace MiniScan

/-! ## Go strings -/

/-- A Go `string`: an immutable sequence of bytes, not necessarily valid UTF-8. -/
abbrev GoString := List (Fin 256)

/-- The bytes of an ASCII literal (every character of the literals used below is ASCII). -/
def ascii (s : String) : GoString := s.data.map fun c => Fin.ofNat c.toNat

/-! ## encoding/base64, `StdEncoding` -/

/-- The alphabet of `base64.StdEncoding`. -/
def encodeStd : GoString :=
  ascii "ABCDEFGHIJKLMNOPQRSTUVWXYZabcdefghijklmnopqrstuvwxyz0123456789+/"

/-- The padding character `=` of `StdEncoding`. -/
def padChar : Fin 256 := 61

/-- The table `enc.encode`: the character of a 6-bit value. -/
def encodeChar (i : Nat) : Fin 256 := encodeStd.getD i 0

/-- The table `enc.decodeMap`: the 6-bit value of an alphabet byte, `none` where the Go
table holds `0xff`. -/
def decodeMap (c : Fin 256) : Option Nat :=
  if encodeStd.indexOf c < 64 then some (encodeStd.indexOf c) else none

/-- The function `base64.StdEncoding.EncodeToString`: three bytes give four characters; a rest of one
or two bytes gives two or three characters and padding. The shifts and masks of the Go
code are written as multiplications, divisions and remainders (the fields that are or-ed
together do not overlap). -/
def EncodeToString : GoString → GoString
  | a :: b :: c :: rest =>
    let val := a.val * 65536 + b.val * 256 + c.val
    encodeChar (val / 262144 % 64) :: encodeChar (val / 4096 % 64) ::
      encodeChar (val / 64 % 64) :: encodeChar (val % 64) :: EncodeToString rest
  | [a, b] =>
    let val := a.val * 65536 + b.val * 256
    [encodeChar (val / 262144 % 64), encodeChar (val / 4096 % 64),
      encodeChar (val / 64 % 64), padChar]
  | [a] =>
    let val := a.val * 65536
    [encodeChar (val / 262144 % 64), encodeChar (val / 4096 % 64), padChar, padChar]
  | [] => []

/-- The loops `for si < len(src) && (src[si] == '\n' || src[si] == '\r')` of
`decodeQuantum`. -/
def skipNewlines : GoString → GoString
  | [] => []
  | c :: cs => if c = 10 ∨ c = 13 then skipNewlines cs else c :: cs

/-- The decoding loop of `Encoding.Decode`: `decodeQuantum` run until the input ends or an
error occurs. `dbuf` holds the 6-bit values read so far in the current quantum.
End of input inside a quantum, padding after fewer than two characters, a missing second
`=`, anything but newlines after the padding and any byte that is neither in the
alphabet nor a newline are errors (`none`); `\r` and `\n` are skipped; the unused low
bits of a padded quantum are not checked (the encoding is not strict). -/
def decodeQuantum : GoString → List Nat → Option GoString
  | [], dbuf => if dbuf = [] then some [] else none
  | c :: src, dbuf =>
    match decodeMap c with
    | some out =>
      match dbuf with
      | [d0, d1, d2] =>
        let val := d0 * 262144 + d1 * 4096 + d2 * 64 + out
        (decodeQuantum src []).map fun tl =>
          Fin.ofNat (val / 65536) :: Fin.ofNat (val / 256) :: Fin.ofNat val :: tl
      | _ => decodeQuantum src (dbuf ++ [out])
    | none =>
      if c = 10 ∨ c = 13 then decodeQuantum src dbuf
      else if c ≠ padChar then none
      else
        match dbuf with
        | [d0, d1] =>
          match skipNewlines src with
          | [] => none
          | p :: rest =>
            if p = padChar ∧ skipNewlines rest = [] then
              some [Fin.ofNat ((d0 * 262144 + d1 * 4096) / 65536)]
            else none
        | [d0, d1, d2] =>
          let val := d0 * 262144 + d1 * 4096 + d2 * 64
          if skipNewlines src = [] then some [Fin.ofNat (val / 65536), Fin.ofNat (val / 256)]
          else none
        | _ => none

/-- The function `base64.StdEncoding.DecodeString`; `none` when it returns a non-nil error. -/
def DecodeString (s : GoString) : Option GoString := decodeQuantum s []

/-! ## encoding/json -/

/-- A JSON number literal, as far as the decoder looks at it: an integer literal (an
optional minus sign and digits), or a literal with a fraction or an exponent, for which
only whether `strconv.ParseFloat` accepts it (no overflow of float64) is kept. -/
inductive JNumber where
  | int (neg : Bool) (mag : Nat)
  | real (finite : Bool)
deriving DecidableEq, Repr

/-- A JSON document. Strings and member names are the Go strings the decoder produces
from them; the members of an object are kept in document order, duplicates included. -/
inductive Json where
  | null
  | bool (b : Bool)
  | number (n : JNumber)
  | string (s : GoString)
  | array (elems : List Json)
  | object (members : List (GoString × Json))
deriving Repr

/-- Whether `strconv.ParseFloat(lit, 64)` succeeds: the value rounds to a finite float64,
that is, its magnitude is below `2^1024 - 2^970`. -/
def JNumber.fitsFloat64 : JNumber → Bool
  | .int _ mag => decide (mag < (2 ^ 256) ^ 4 - (2 ^ 256) ^ 3 * 2 ^ 202)
  | .real finite => finite

mutual
/-- Whether a value decodes into an `interface{}` without error: every number in it must
convert to float64 (`convertNumber`). -/
def Json.convertible : Json → Bool
  | .number n => n.fitsFloat64
  | .array elems => convertibleElems elems
  | .object members => convertibleMembers members
  | _ => true
/-- The elements of an array all convert. -/
def convertibleElems : List Json → Bool
  | [] => true
  | v :: rest => v.convertible && convertibleElems rest
/-- The member values of an object all convert. -/
def convertibleMembers : List (GoString × Json) → Bool
  | [] => true
  | (_, v) :: rest => v.convertible && convertibleMembers rest
end

/-- Index expression `m[key]` on the `map[string]interface{}` decoded from an object: the
last member with that name wins; `none` when there is none. -/
def mapIndex : List (GoString × Json) → GoString → Option Json
  | [], _ => none
  | (k, v) :: rest, key =>
    match mapIndex rest key with
    | some w => some w
    | none => if k = key then some v else none

/-- Upper-case form of an ASCII letter, other bytes unchanged. -/
def upperByte (c : Fin 256) : Fin 256 :=
  if 97 ≤ c.val ∧ c.val ≤ 122 then Fin.ofNat (c.val - 32) else c

/-- The case folding `foldName` of `encoding/json`, as far as matching against the ASCII
field names goes: ASCII letters are upper-cased, U+017F (long s, bytes C5 BF) folds to
`S` and U+212A (Kelvin sign, bytes E2 84 AA) to `K`; every other rune folds to a rune
outside ASCII and is left as it is. -/
def foldName : GoString → GoString
  | [] => []
  | 0xE2 :: 0x84 :: 0xAA :: rest => 75 :: foldName rest
  | 0xC5 :: 0xBF :: rest => 83 :: foldName rest
  | c :: rest => upperByte c :: foldName rest

/-- The fields of `scanning.Scan`. -/
inductive Field where
  | ip | port | service | timestamp | data_version | data
deriving DecidableEq, Repr

/-- Modelled from the spec: the JSON names of the fields of `scanning.Scan` (the struct
declaration and its tags are in `pkg/scanning`), as given by the wire format. -/
def Field.tag : Field → GoString
  | .ip => ascii "ip"
  | .port => ascii "port"
  | .service => ascii "service"
  | .timestamp => ascii "timestamp"
  | .data_version => ascii "data_version"
  | .data => ascii "data"

/-- The fields in declaration order. -/
def Field.all : List Field := [.ip, .port, .service, .timestamp, .data_version, .data]

/-- The field a member name selects: an exact match of the tag, else a match under case
folding; `none` for an unknown name, whose value is skipped. -/
def fieldFor (key : GoString) : Option Field :=
  match Field.all.find? fun f => f.tag = key with
  | some f => some f
  | none => Field.all.find? fun f => foldName f.tag = foldName key

/-- Modelled from the spec: the struct `scanning.Scan` of `pkg/scanning`, with the field
types its uses in this repository fix: `Ip`, `Service` string, `Port` uint32, `Timestamp`
int64, `DataVersion` int (64 bits), `Data` interface{} (the decoded JSON value, `null`
for the nil interface). -/
structure Scan where
  Ip : GoString
  Port : Nat
  Service : GoString
  Timestamp : Int
  DataVersion : Int
  Data : Json

/-- The zero value `var scan scanning.Scan`. -/
def Scan.zero : Scan := ⟨[], 0, [], 0, 0, .null⟩

/-- The value of an integer literal. -/
def litValue (neg : Bool) (mag : Nat) : Int := if neg then -(mag : Int) else (mag : Int)

/-- Decoding one member value into the field it selects; `none` when the decoder records
an error (`UnmarshalTypeError`). `null` leaves a string or integer field as it is and
sets `Data` to nil; a string field takes a JSON string; `Port` takes a literal that
`ParseUint(_, 10, 64)` accepts and that fits 32 bits; `Timestamp` and `DataVersion` take a
literal that `ParseInt(_, 10, 64)` accepts; `Data` takes any value whose numbers convert
to float64. -/
def storeField (f : Field) (v : Json) (scan : Scan) : Option Scan :=
  match f, v with
  | .data, v => if v.convertible then some { scan with Data := v } else none
  | _, .null => some scan
  | .ip, .string s => some { scan with Ip := s }
  | .service, .string s => some { scan with Service := s }
  | .port, .number (.int false mag) =>
    if mag < 2 ^ 32 then some { scan with Port := mag } else none
  | .timestamp, .number (.int neg mag) =>
    if -(2 ^ 63) ≤ litValue neg mag ∧ litValue neg mag < 2 ^ 63 then
      some { scan with Timestamp := litValue neg mag }
    else none
  | .data_version, .number (.int neg mag) =>
    if -(2 ^ 63) ≤ litValue neg mag ∧ litValue neg mag < 2 ^ 63 then
      some { scan with DataVersion := litValue neg mag }
    else none
  | _, _ => none

/-- Decoding the members of the top-level object in document order. The first recorded
error makes `json.Unmarshal` return an error, whatever follows. -/
def decodeObject : List (GoString × Json) → Scan → Option Scan
  | [], scan => some scan
  | (key, v) :: rest, scan =>
    match fieldFor key with
    | none => decodeObject rest scan
    | some f =>
      match storeField f v scan with
      | none => none
      | some scan' => decodeObject rest scan'

/-- The call `json.Unmarshal(msg.Data, &scan)` on a zero `scan`; `none` when it returns an
error: the bytes are not a JSON document, or the document is neither `null` nor an
object, or a member fails to decode. -/
def Unmarshal : Option Json → Option Scan
  | none => none
  | some .null => some Scan.zero
  | some (.object members) => decodeObject members Scan.zero
  | some _ => none

/-! ## pkg/scanning -/

/-- Modelled from the spec: the constant `scanning.V1` of `pkg/scanning`, the
`data_version` of the `response_bytes_utf8` payload. -/
def V1 : Int := 1

/-- Modelled from the spec: the constant `scanning.V2` of `pkg/scanning`, the
`data_version` of the `response_str` payload. -/
def V2 : Int := 2

/-! ## The table `scans` -/

/-- A row of `scans`. -/
structure Row where
  ip : GoString
  port : Nat
  service : GoString
  data_version : Int
  last_scanned : Int
  response : GoString
deriving DecidableEq, Repr

/-- The table `scans`: its rows, oldest first. -/
abbrev Table := List Row

/-- The condition `ip = ? AND port = ? AND service = ?`. -/
def Row.hasKey (r : Row) (ip : GoString) (port : Nat) (service : GoString) : Bool :=
  decide (r.ip = ip) && decide (r.port = port) && decide (r.service = service)

/-- The function `initializeDatabase`: `CREATE TABLE IF NOT EXISTS scans`; a database without the table
gets an empty one, an existing table is kept. -/
def initializeDatabase (existing : Option Table) : Table := existing.getD []

/-- The query `SELECT * FROM scans WHERE ip = ? AND port = ? AND service = ?`. -/
def selectByKey (db : Table) (ip : GoString) (port : Nat) (service : GoString) : List Row :=
  db.filter fun r => r.hasKey ip port service

/-- The effect of `INSERT OR REPLACE INTO scans` under `PRIMARY KEY (ip, port, service)`:
rows with the key of the new row are deleted, then the new row is inserted. -/
def insertOrReplace (db : Table) (row : Row) : Table :=
  (db.filter fun r => !r.hasKey row.ip row.port row.service) ++ [row]

/-- The call `db.Exec` of the insert statement: with `fault` it returns an error and the
table is as before (the statement is atomic), otherwise it yields the new table. -/
def Exec (fault : Bool) (db : Table) (row : Row) : Option Table :=
  if fault then none else some (insertOrReplace db row)

/-! ## processMessage -/

/-- What a call tells the transport. -/
inductive Signal where
  | Ack
  | Nack
deriving DecidableEq, Repr

/-- The function `processMessage` of `cmd/subscriber/main.go`. `Version` is the constant
`scanning.Version` of `pkg/scanning`, which the insert statement binds to `data_version`;
`fault` tells whether `db.Exec` fails; `msg` is the body of the message. The result is the
signals sent for the message, in order, and the table afterwards. -/
def processMessage (Version : Int) (fault : Bool) (msg : Option Json) (db : Table) :
    List Signal × Table :=
  match Unmarshal msg with
  | none => ([Signal.Nack], db)
  | some scan =>
    let update (response : GoString) : List Signal × Table :=
      match Exec fault db
        ⟨scan.Ip, scan.Port, scan.Service, Version, scan.Timestamp, response⟩ with
      | none => ([Signal.Nack], db)
      | some db' => ([Signal.Ack], db')
    if scan.DataVersion = V1 then
      match scan.Data with
      | .object v1Data =>
        match mapIndex v1Data (ascii "response_bytes_utf8") with
        | some (.string responseBytes) =>
          match DecodeString responseBytes with
          | none => ([Signal.Nack], db)
          | some decoded => update decoded
        | _ => ([Signal.Nack], db)
      | _ => ([Signal.Nack], db)
    else if scan.DataVersion = V2 then
      match scan.Data with
      | .object v2Data =>
        match mapIndex v2Data (ascii "response_str") with
        | some (.string responseStr) => update responseStr
        | _ => ([Signal.Nack], db)
      | _ => ([Signal.Nack], db)
    else ([Signal.Nack], db)

/-- One delivery: the body of the message and whether the insert statement fails while it
is processed. -/
structure Delivery where
  fault : Bool
  body : Option Json

/-- The function `receiveMessages` with a subscription that hands the messages to the
callback one after the other (as `MockSubscription.Receive` does): the signals of each
message and the table at the end. -/
def receiveMessages (Version : Int) : List Delivery → Table → List (List Signal) × Table
  | [], db => ([], db)
  | d :: rest, db =>
    let r := processMessage Version d.fault d.body db
    let rs := receiveMessages Version rest r.2
    (r.1 :: rs.1, rs.2)

/-! ## The pipeline in the words of the specification -/

/-- The V1 decoder of the specification: the payload must be an object whose field
`response_bytes_utf8` is a string holding base64; the response is the decoded bytes. -/
def Spec.decodeV1 (payload : Json) : Option GoString :=
  match payload with
  | .object fields =>
    match mapIndex fields (ascii "response_bytes_utf8") with
    | some (.string encoded) => DecodeString encoded
    | _ => none
  | _ => none

/-- The V2 decoder of the specification: the payload must be an object whose field
`response_str` is a string; the response is that string. -/
def Spec.decodeV2 (payload : Json) : Option GoString :=
  match payload with
  | .object fields =>
    match mapIndex fields (ascii "response_str") with
    | some (.string s) => some s
    | _ => none
  | _ => none

/-- The normalizer of the specification: strict dispatch on the version discriminant,
no decoder for any value but 1 and 2. -/
def Spec.normalize (scan : Scan) : Option GoString :=
  if scan.DataVersion = 1 then Spec.decodeV1 scan.Data
  else if scan.DataVersion = 2 then Spec.decodeV2 scan.Data
  else none

/-- The row the insert statement of `processMessage` writes for a decoded envelope. -/
def rowOf (Version : Int) (scan : Scan) (response : GoString) : Row :=
  ⟨scan.Ip, scan.Port, scan.Service, Version, scan.Timestamp, response⟩

/-- The fields the envelope contract of the specification calls required: `ip`, `port`,
`service` and `dataVersion`. -/
def Field.required : Field → Bool
  | .ip | .port | .service | .data_version => true
  | .timestamp | .data => false

/-- A member value of the wrong shape for its field: a value other than `null` that is
not a string for `ip` and `service`, not an unsigned integer literal below `2^32` for
`port`, not an integer literal in the int64 range for `timestamp` and `data_version`; for
`data`, a value holding a number outside the float64 range. -/
def Spec.wrongShape : Field → Json → Bool
  | .data, v => !v.convertible
  | _, .null => false
  | .ip, .string _ => false
  | .service, .string _ => false
  | .port, .number (.int false mag) => !decide (mag < 2 ^ 32)
  | .timestamp, .number (.int neg mag) =>
    !decide (-(2 ^ 63) ≤ litValue neg mag ∧ litValue neg mag < 2 ^ 63)
  | .data_version, .number (.int neg mag) =>
    !decide (-(2 ^ 63) ≤ litValue neg mag ∧ litValue neg mag < 2 ^ 63)
  | _, _ => true

/-! ## Example messages -/

/-- The envelope of a message body. -/
def envelope (ip : String) (port : Nat) (service : String) (timestamp : Nat)
    (data_version : Nat) (data : Json) : Option Json :=
  some (.object [
    (ascii "ip", .string (ascii ip)),
    (ascii "port", .number (.int false port)),
    (ascii "service", .string (ascii service)),
    (ascii "timestamp", .number (.int false timestamp)),
    (ascii "data_version", .number (.int false data_version)),
    (ascii "data", data)])

/-- The payload `{"response_bytes_utf8": s}`. -/
def v1Payload (s : GoString) : Json := .object [(ascii "response_bytes_utf8", .string s)]

/-- The payload `{"response_str": s}`. -/
def v2Payload (s : GoString) : Json := .object [(ascii "response_str", .string s)]

/-- First scenario of the specification: V1, base64 of "hello". -/
def scenarioV1 : Option Json :=
  envelope "192.168.1.1" 80 "http" 1000 1 (v1Payload (ascii "aGVsbG8="))

/-- Second scenario of the specification: V2, "banner text". -/
def scenarioV2 : Option Json :=
  envelope "10.0.0.1" 22 "ssh" 2000 2 (v2Payload (ascii "banner text"))

/-- The V1 message of `TestProcessMessage`. -/
def testV1 : Option Json :=
  envelope "192.168.1.1" 80 "http" 1700000000 1
    (v1Payload (EncodeToString (ascii "Hello, World!")))

/-- A V1 body whose payload is the base64 encoding of the bytes FF FE, which are not
valid UTF-8. -/
def rawBytesV1 : Option Json :=
  envelope "192.168.1.1" 80 "http" 1700000000 1 (v1Payload (EncodeToString [0xFF, 0xFE]))

/-- The V2 message of `TestProcessMessage`. -/
def testV2 : Option Json :=
  envelope "192.168.1.2" 443 "https" 1700000000 2 (v2Payload (ascii "SSL Handshake"))

/-- The body `{"data_version": 2, "data": {"response_str": "banner text"}}`: no `ip`. -/
def envelopeWithoutIp : Option Json :=
  some (.object [
    (ascii "data_version", .number (.int false 2)),
    (ascii "data", v2Payload (ascii "banner text"))])

/-- A body with `data_version` 3 and a well-formed V2 payload. -/
def envelopeVersion3 : Option Json :=
  envelope "10.0.0.1" 22 "ssh" 2000 3 (v2Payload (ascii "banner text"))

/-- The members of a body with a well-formed V1 payload and no `data_version`. -/
def membersWithoutVersion : List (GoString × Json) :=
  [(ascii "ip", .string (ascii "10.0.0.1")),
   (ascii "port", .number (.int false 22)),
   (ascii "service", .string (ascii "ssh")),
   (ascii "timestamp", .number (.int false 2000)),
   (ascii "data", v1Payload (ascii "aGVsbG8="))]

/-- A V1 body whose `response_bytes_utf8` is the string "not base64!". -/
def envelopeBadBase64 : Option Json :=
  envelope "192.168.1.1" 80 "http" 3000 1 (v1Payload (ascii "not base64!"))

/-- The members of a body whose `port` is the string "80". -/
def membersPortString : List (GoString × Json) :=
  [(ascii "ip", .string (ascii "192.168.1.1")),
   (ascii "port", .string (ascii "80")),
   (ascii "service", .string (ascii "http")),
   (ascii "timestamp", .number (.int false 1000)),
   (ascii "data_version", .number (.int false 2)),
   (ascii "data", v2Payload (ascii "banner text"))]

/-- A table holding one row for 192.168.1.1:80/http. -/
def oneRowTable : Table := [⟨ascii "192.168.1.1", 80, ascii "http", 0, 1000, ascii "hello"⟩]

/-- A V2 body for 192.168.1.1:80/http with timestamp 1000 and response "first". -/
def firstDelivery : Option Json :=
  envelope "192.168.1.1" 80 "http" 1000 2 (v2Payload (ascii "first"))

/-- A V1 body for the same key with the earlier timestamp 500 and response "second"
(base64 `c2Vjb25k`). -/
def secondDelivery : Option Json :=
  envelope "192.168.1.1" 80 "http" 500 1 (v1Payload (ascii "c2Vjb25k"))

/-! ## Lemmas: base64 -/

theorem decodeMap_encodeChar (i : Nat) (h : i < 64) : decodeMap (encodeChar i) = some i := by
  revert i; decide

theorem decodeMap_padChar : decodeMap padChar = none := by decide

theorem byte_ofNat_eq (n : Nat) (b : Fin 256) (h : n % 256 = b.val) :
    (Fin.ofNat n : Fin 256) = b := by
  apply Fin.ext
  simpa [Fin.ofNat] using h

theorem decodeQuantum_group (d0 d1 d2 d3 : Nat) (h0 : d0 < 64) (h1 : d1 < 64) (h2 : d2 < 64)
    (h3 : d3 < 64) (src : GoString) :
    decodeQuantum (encodeChar d0 :: encodeChar d1 :: encodeChar d2 :: encodeChar d3 :: src) [] =
      (decodeQuantum src []).map fun tl =>
        Fin.ofNat ((d0 * 262144 + d1 * 4096 + d2 * 64 + d3) / 65536) ::
          Fin.ofNat ((d0 * 262144 + d1 * 4096 + d2 * 64 + d3) / 256) ::
          Fin.ofNat (d0 * 262144 + d1 * 4096 + d2 * 64 + d3) :: tl := by
  simp [decodeQuantum, decodeMap_encodeChar, h0, h1, h2, h3]

/-- Decoding undoes encoding, for every byte string. -/
theorem DecodeString_EncodeToString (s : GoString) :
    DecodeString (EncodeToString s) = some s := by
  unfold DecodeString
  induction s using EncodeToString.induct with
  | case1 a b c rest ih =>
    rw [EncodeToString]
    rw [decodeQuantum_group _ _ _ _ (Nat.mod_lt _ (by norm_num)) (Nat.mod_lt _ (by norm_num))
      (Nat.mod_lt _ (by norm_num)) (Nat.mod_lt _ (by norm_num)), ih]
    have ha := a.isLt
    have hb := b.isLt
    have hc := c.isLt
    simp only [Option.map_some', Option.some.injEq, List.cons.injEq, and_true]
    refine ⟨byte_ofNat_eq _ _ ?_, byte_ofNat_eq _ _ ?_, byte_ofNat_eq _ _ ?_⟩ <;> omega
  | case2 a b =>
    have ha := a.isLt
    have hb := b.isLt
    simp only [EncodeToString, decodeQuantum, decodeMap_encodeChar, decodeMap_padChar,
      Nat.mod_lt _ (show 0 < 64 by norm_num)]
    simp [skipNewlines, padChar]
    refine ⟨byte_ofNat_eq _ _ ?_, byte_ofNat_eq _ _ ?_⟩ <;> omega
  | case3 a =>
    have ha := a.isLt
    simp only [EncodeToString, decodeQuantum, decodeMap_encodeChar, decodeMap_padChar,
      Nat.mod_lt _ (show 0 < 64 by norm_num)]
    simp [skipNewlines, padChar]
    refine byte_ofNat_eq _ _ ?_; omega
  | case4 => simp [EncodeToString, decodeQuantum]

theorem skipNewlines_mem (c : Fin 256) (hc10 : c ≠ 10) (hc13 : c ≠ 13) :
    ∀ src : GoString, c ∈ src → c ∈ skipNewlines src := by
  intro src
  induction src with
  | nil => intro h; exact h
  | cons b rest ih =>
    intro h
    unfold skipNewlines
    split_ifs with hb
    · rcases List.mem_cons.mp h with heq | hin
      · rcases hb with hb | hb
        · exact absurd (heq.trans hb) hc10
        · exact absurd (heq.trans hb) hc13
      · exact ih hin
    · exact h

theorem decodeQuantum_cons (c : Fin 256) (src : GoString) (dbuf : List Nat) :
    decodeQuantum (c :: src) dbuf =
      match decodeMap c with
      | some out =>
        match dbuf with
        | [d0, d1, d2] =>
          (decodeQuantum src []).map fun tl =>
            Fin.ofNat ((d0 * 262144 + d1 * 4096 + d2 * 64 + out) / 65536) ::
              Fin.ofNat ((d0 * 262144 + d1 * 4096 + d2 * 64 + out) / 256) ::
              Fin.ofNat (d0 * 262144 + d1 * 4096 + d2 * 64 + out) :: tl
        | _ => decodeQuantum src (dbuf ++ [out])
      | none =>
        if c = 10 ∨ c = 13 then decodeQuantum src dbuf
        else if c ≠ padChar then none
        else
          match dbuf with
          | [d0, d1] =>
            match skipNewlines src with
            | [] => none
            | p :: rest =>
              if p = padChar ∧ skipNewlines rest = [] then
                some [Fin.ofNat ((d0 * 262144 + d1 * 4096) / 65536)]
              else none
          | [d0, d1, d2] =>
            if skipNewlines src = [] then
              some [Fin.ofNat ((d0 * 262144 + d1 * 4096 + d2 * 64) / 65536),
                Fin.ofNat ((d0 * 262144 + d1 * 4096 + d2 * 64) / 256)]
            else none
          | _ => none := by
  rfl

/-- A string holding a byte that is neither in the alphabet nor `=`, CR or LF is
rejected, wherever the byte stands. -/
theorem decodeQuantum_foreign_byte (c : Fin 256) (hmap : decodeMap c = none) (hc10 : c ≠ 10)
    (hc13 : c ≠ 13) (hpad : c ≠ padChar) :
    ∀ (src : GoString) (dbuf : List Nat), c ∈ src → decodeQuantum src dbuf = none := by
  intro src
  induction src with
  | nil => intro dbuf h; simp at h
  | cons b rest ih =>
    intro dbuf h
    rw [decodeQuantum_cons]
    rcases List.mem_cons.mp h with heq | hin
    · subst heq
      simp [hmap, hc10, hc13, hpad]
    · have hskip : c ∈ skipNewlines rest := skipNewlines_mem c hc10 hc13 rest hin
      have hne : skipNewlines rest ≠ [] := by
        intro hnil
        rw [hnil] at hskip
        simp at hskip
      cases hb : decodeMap b with
      | some out =>
        simp only []
        split
        · simp [ih [] hin]
        · exact ih _ hin
      | none =>
        simp only []
        split_ifs with h1 h2
        · exact ih _ hin
        · rfl
        · split
          · cases hs : skipNewlines rest with
            | nil => rfl
            | cons p tl =>
              simp only []
              rw [hs] at hskip
              split_ifs with h3
              · exfalso
                rcases List.mem_cons.mp hskip with hcp | hct
                · exact hpad (hcp.trans h3.1)
                · have := skipNewlines_mem c hc10 hc13 tl hct
                  rw [h3.2] at this
                  simp at this
              · rfl
          · simp [hne]
          · rfl

theorem DecodeString_foreign_byte (s : GoString) (c : Fin 256) (hc : c ∈ s)
    (hmap : decodeMap c = none) (hc10 : c ≠ 10) (hc13 : c ≠ 13) (hpad : c ≠ padChar) :
    DecodeString s = none :=
  decodeQuantum_foreign_byte c hmap hc10 hc13 hpad s [] hc

/-! ## Lemmas: the table -/

theorem selectByKey_insertOrReplace_same (db : Table) (row : Row) :
    selectByKey (insertOrReplace db row) row.ip row.port row.service = [row] := by
  simp [selectByKey, insertOrReplace, List.filter_append, List.filter_filter, Row.hasKey]

theorem hasKey_of_ne (r row : Row) (ip : GoString) (port : Nat) (service : GoString)
    (hne : (row.ip, row.port, row.service) ≠ (ip, port, service))
    (h : r.hasKey ip port service = true) : r.hasKey row.ip row.port row.service = false := by
  simp only [Row.hasKey, Bool.and_eq_true, decide_eq_true_eq] at h
  obtain ⟨⟨h1, h2⟩, h3⟩ := h
  simp only [Row.hasKey, Bool.and_eq_false_iff, decide_eq_false_iff_not, h1, h2, h3]
  by_contra hc
  push_neg at hc
  exact hne (by rw [hc.1.1, hc.1.2, hc.2])

theorem selectByKey_insertOrReplace_other (db : Table) (row : Row) (ip : GoString) (port : Nat)
    (service : GoString) (hne : (row.ip, row.port, row.service) ≠ (ip, port, service)) :
    selectByKey (insertOrReplace db row) ip port service = selectByKey db ip port service := by
  have hrow : row.hasKey ip port service = false := by
    simp only [Row.hasKey, Bool.and_eq_false_iff, decide_eq_false_iff_not]
    by_contra hc
    push_neg at hc
    exact hne (by rw [hc.1.1, hc.1.2, hc.2])
  simp only [selectByKey, insertOrReplace, List.filter_append, List.filter_filter, List.filter_cons,
    hrow, List.filter_nil, List.append_nil, Bool.false_eq_true, if_false]
  apply List.filter_congr
  intro r _
  cases h : r.hasKey ip port service
  · simp
  · simp [hasKey_of_ne r row ip port service hne h]

theorem insertOrReplace_overwrite (db : Table) (r1 r2 : Row)
    (hk : (r1.ip, r1.port, r1.service) = (r2.ip, r2.port, r2.service)) :
    insertOrReplace (insertOrReplace db r1) r2 = insertOrReplace db r2 := by
  simp only [Prod.mk.injEq] at hk
  obtain ⟨h1, h2, h3⟩ := hk
  simp [insertOrReplace, List.filter_append, List.filter_filter, Row.hasKey, h1, h2, h3]

/-! ## Lemmas: json.Unmarshal -/

theorem storeField_frame (f : Field) (v : Json) (scan scan' : Scan)
    (h : storeField f v scan = some scan') :
    (f ≠ .ip → scan'.Ip = scan.Ip) ∧ (f ≠ .port → scan'.Port = scan.Port) ∧
      (f ≠ .service → scan'.Service = scan.Service) ∧
      (f ≠ .data_version → scan'.DataVersion = scan.DataVersion) := by
  unfold storeField at h
  split at h
  all_goals first
    | contradiction
    | (split_ifs at h
       simp only [Option.some.injEq] at h
       rw [← h]
       simp)
    | (simp only [Option.some.injEq] at h
       rw [← h]
       simp)

theorem decodeObject_frame {α : Type} (proj : Scan → α) (g : Field)
    (hstore : ∀ f v scan scan', storeField f v scan = some scan' → f ≠ g →
      proj scan' = proj scan)
    (members : List (GoString × Json)) :
    ∀ scan scan' : Scan, decodeObject members scan = some scan' →
      (∀ kv ∈ members, fieldFor kv.1 ≠ some g) → proj scan' = proj scan := by
  induction members with
  | nil =>
    intro scan scan' h _
    simp only [decodeObject, Option.some.injEq] at h
    rw [h]
  | cons kv rest ih =>
    intro scan scan' h hno
    obtain ⟨key, v⟩ := kv
    have hkey : fieldFor key ≠ some g := hno (key, v) (List.mem_cons_self _ _)
    have hrest : ∀ kv ∈ rest, fieldFor kv.1 ≠ some g :=
      fun kv hkv => hno kv (List.mem_cons_of_mem _ hkv)
    unfold decodeObject at h
    cases hf : fieldFor key with
    | none =>
      simp only [hf] at h
      exact ih scan scan' h hrest
    | some f =>
      simp only [hf] at h
      cases hs : storeField f v scan with
      | none => simp [hs] at h
      | some mid =>
        simp only [hs] at h
        have hne : f ≠ g := by
          intro hc; rw [hc] at hf; exact hkey hf
        rw [ih mid scan' h hrest, hstore f v scan mid hs hne]

theorem Unmarshal_absent_data_version (members : List (GoString × Json)) (scan : Scan)
    (h : Unmarshal (some (.object members)) = some scan)
    (hno : ∀ kv ∈ members, fieldFor kv.1 ≠ some .data_version) : scan.DataVersion = 0 := by
  simp only [Unmarshal] at h
  rw [decodeObject_frame Scan.DataVersion .data_version
    (fun f v sc sc' hs => (storeField_frame f v sc sc' hs).2.2.2) members Scan.zero scan h hno]
  rfl

theorem Unmarshal_absent_key (members : List (GoString × Json)) (scan : Scan)
    (h : Unmarshal (some (.object members)) = some scan) :
    ((∀ kv ∈ members, fieldFor kv.1 ≠ some .ip) → scan.Ip = []) ∧
      ((∀ kv ∈ members, fieldFor kv.1 ≠ some .port) → scan.Port = 0) ∧
      ((∀ kv ∈ members, fieldFor kv.1 ≠ some .service) → scan.Service = []) := by
  simp only [Unmarshal] at h
  refine ⟨fun hno => ?_, fun hno => ?_, fun hno => ?_⟩
  · rw [decodeObject_frame Scan.Ip .ip
      (fun f v sc sc' hs => (storeField_frame f v sc sc' hs).1) members Scan.zero scan h hno]
    rfl
  · rw [decodeObject_frame Scan.Port .port
      (fun f v sc sc' hs => (storeField_frame f v sc sc' hs).2.1) members Scan.zero scan h hno]
    rfl
  · rw [decodeObject_frame Scan.Service .service
      (fun f v sc sc' hs => (storeField_frame f v sc sc' hs).2.2.1) members Scan.zero scan h hno]
    rfl

theorem storeField_wrongShape (f : Field) (v : Json) (scan : Scan)
    (h : Spec.wrongShape f v = true) : storeField f v scan = none := by
  unfold Spec.wrongShape at h
  unfold storeField
  split at h <;> simp_all <;> omega

theorem decodeObject_wrongShape (members : List (GoString × Json)) :
    ∀ scan : Scan, (∃ kv ∈ members, ∃ f, fieldFor kv.1 = some f ∧ Spec.wrongShape f kv.2 = true) →
      decodeObject members scan = none := by
  induction members with
  | nil => intro scan h; obtain ⟨kv, hkv, _⟩ := h; simp at hkv
  | cons kv rest ih =>
    intro scan h
    obtain ⟨key, v⟩ := kv
    obtain ⟨kv', hmem, f, hf, hw⟩ := h
    unfold decodeObject
    rcases List.mem_cons.mp hmem with heq | hin
    · subst heq
      simp only at hf hw
      rw [hf]
      simp only [storeField_wrongShape f v scan hw]
    · have hrest : decodeObject rest = fun _ => none := by
        funext sc; exact ih sc ⟨kv', hin, f, hf, hw⟩
      cases hk : fieldFor key with
      | none => simp only [hrest]
      | some g =>
        simp only []
        cases storeField g v scan with
        | none => rfl
        | some mid => simp only [hrest]

/-! ## Lemmas: processMessage -/

theorem processMessage_eq (Version : Int) (fault : Bool) (msg : Option Json) (db : Table) :
    processMessage Version fault msg db =
      match Unmarshal msg with
      | none => ([Signal.Nack], db)
      | some scan =>
        match Spec.normalize scan with
        | none => ([Signal.Nack], db)
        | some response =>
          if fault then ([Signal.Nack], db)
          else ([Signal.Ack], insertOrReplace db (rowOf Version scan response)) := by
  unfold processMessage
  cases hU : Unmarshal msg with
  | none => rfl
  | some scan =>
    simp only [Spec.normalize, Spec.decodeV1, Spec.decodeV2, V1, V2, Exec, rowOf]
    split_ifs <;> (repeat' split) <;> simp_all

theorem processMessage_cases (Version : Int) (fault : Bool) (msg : Option Json) (db : Table) :
    processMessage Version fault msg db = ([Signal.Nack], db) ∨
      ∃ scan response, Unmarshal msg = some scan ∧ Spec.normalize scan = some response ∧
        fault = false ∧
        processMessage Version fault msg db =
          ([Signal.Ack], insertOrReplace db (rowOf Version scan response)) := by
  rw [processMessage_eq]
  cases hU : Unmarshal msg with
  | none => exact Or.inl rfl
  | some scan =>
    cases hN : Spec.normalize scan with
    | none => exact Or.inl (by simp only [hN])
    | some response =>
      cases fault with
      | true => exact Or.inl (by simp only [hN, if_true])
      | false =>
        exact Or.inr ⟨scan, response, rfl, hN, rfl,
          by simp only [hN, Bool.false_eq_true, if_false]⟩

theorem processMessage_of_ack (Version : Int) (fault : Bool) (msg : Option Json) (db : Table)
    (h : (processMessage Version fault msg db).1 = [Signal.Ack]) :
    ∃ scan response, Unmarshal msg = some scan ∧ Spec.normalize scan = some response ∧
      fault = false ∧
      ∀ t, processMessage Version fault msg t =
        ([Signal.Ack], insertOrReplace t (rowOf Version scan response)) := by
  rcases processMessage_cases Version fault msg db with hn | ⟨scan, response, hU, hN, hf, _⟩
  · rw [hn] at h
    simp at h
  · refine ⟨scan, response, hU, hN, hf, fun t => ?_⟩
    rw [processMessage_eq]
    simp only [hU, hN, hf, Bool.false_eq_true, if_false]

theorem processMessage_of_nack (Version : Int) (fault : Bool) (msg : Option Json) (db : Table)
    (h : (processMessage Version fault msg db).1 = [Signal.Nack]) :
    processMessage Version fault msg db = ([Signal.Nack], db) := by
  rcases processMessage_cases Version fault msg db with hn | ⟨scan, response, _, _, _, ha⟩
  · exact hn
  · rw [ha] at h
    simp at h

/-! ## Lemmas: receiveMessages -/

theorem processMessage_unique (Version : Int) (fault : Bool) (msg : Option Json) (db : Table)
    (h : ∀ ip port service, (selectByKey db ip port service).length ≤ 1) :
    ∀ ip port service,
      (selectByKey (processMessage Version fault msg db).2 ip port service).length ≤ 1 := by
  intro ip port service
  rcases processMessage_cases Version fault msg db with hn | ⟨scan, response, _, _, _, ha⟩
  · rw [hn]
    exact h ip port service
  · rw [ha]
    by_cases hkey : (scan.Ip, scan.Port, scan.Service) = (ip, port, service)
    · simp only [Prod.mk.injEq] at hkey
      obtain ⟨e1, e2, e3⟩ := hkey
      have := selectByKey_insertOrReplace_same db (rowOf Version scan response)
      simp only [rowOf] at this ⊢
      rw [← e1, ← e2, ← e3, this]
      simp
    · rw [selectByKey_insertOrReplace_other db (rowOf Version scan response) ip port service hkey]
      exact h ip port service

theorem receiveMessages_unique (Version : Int) (ds : List Delivery) :
    ∀ db : Table, (∀ ip port service, (selectByKey db ip port service).length ≤ 1) →
      ∀ ip port service,
        (selectByKey (receiveMessages Version ds db).2 ip port service).length ≤ 1 := by
  induction ds with
  | nil => intro db h; exact h
  | cons d rest ih =>
    intro db h
    simp only [receiveMessages]
    exact ih _ (processMessage_unique Version d.fault d.body db h)

theorem processMessage_row_iff (Version : Int) (fault : Bool) (msg : Option Json) (db : Table)
    (ip : GoString) (port : Nat) (service : GoString) :
    selectByKey (processMessage Version fault msg db).2 ip port service ≠ [] ↔
      selectByKey db ip port service ≠ [] ∨
        ((processMessage Version fault msg db).1 = [Signal.Ack] ∧
          ∃ scan, Unmarshal msg = some scan ∧
            (scan.Ip, scan.Port, scan.Service) = (ip, port, service)) := by
  rcases processMessage_cases Version fault msg db with hn | ⟨scan, response, hU, _, _, ha⟩
  · rw [hn]
    simp
  · rw [ha]
    by_cases hkey : (scan.Ip, scan.Port, scan.Service) = (ip, port, service)
    · have hne : selectByKey (insertOrReplace db (rowOf Version scan response)) ip port service
          ≠ [] := by
        simp only [Prod.mk.injEq] at hkey
        obtain ⟨e1, e2, e3⟩ := hkey
        have := selectByKey_insertOrReplace_same db (rowOf Version scan response)
        simp only [rowOf] at this ⊢
        rw [← e1, ← e2, ← e3, this]
        simp
      constructor
      · intro _
        exact Or.inr ⟨rfl, scan, hU, hkey⟩
      · intro _
        exact hne
    · rw [selectByKey_insertOrReplace_other db (rowOf Version scan response) ip port service hkey]
      constructor
      · intro h
        exact Or.inl h
      · rintro (h | ⟨_, scan', hU', hk'⟩)
        · exact h
        · rw [hU] at hU'
          cases hU'
          exact absurd hk' hkey

theorem receiveMessages_row_iff (Version : Int) (ds : List Delivery) :
    ∀ (db : Table) (ip : GoString) (port : Nat) (service : GoString),
      selectByKey (receiveMessages Version ds db).2 ip port service ≠ [] ↔
        selectByKey db ip port service ≠ [] ∨
          ∃ p ∈ ds.zip (receiveMessages Version ds db).1, p.2 = [Signal.Ack] ∧
            ∃ scan, Unmarshal p.1.body = some scan ∧
              (scan.Ip, scan.Port, scan.Service) = (ip, port, service) := by
  induction ds with
  | nil => intro db ip port service; simp [receiveMessages]
  | cons d rest ih =>
    intro db ip port service
    simp only [receiveMessages, List.zip_cons_cons, List.mem_cons, exists_eq_or_imp]
    rw [ih, processMessage_row_iff, or_assoc]

/-! ## The claims -/

/-- C1: the insert statement binds the package constant `scanning.Version` to
`data_version`, not the envelope's `data_version`: on the empty table the two scenarios
of the specification are acked and leave the rows
`(192.168.1.1, 80, http, Version, 1000, "hello")` and
`(10.0.0.1, 22, ssh, Version, 2000, "banner text")`, the same version column for both,
so the column cannot be 1 for the first and 2 for the second envelope. -/
theorem processMessage_binds_package_Version (Version : Int) :
    processMessage Version false scenarioV1 (initializeDatabase none) =
        ([Signal.Ack], [⟨ascii "192.168.1.1", 80, ascii "http", Version, 1000, ascii "hello"⟩]) ∧
      processMessage Version false scenarioV2 (initializeDatabase none) =
        ([Signal.Ack], [⟨ascii "10.0.0.1", 22, ascii "ssh", Version, 2000, ascii "banner text"⟩]) ∧
      ¬(Version = 1 ∧ Version = 2) := by
  refine ⟨rfl, rfl, ?_⟩
  omega

/-- C2: for every byte string `s` (valid UTF-8 or not) and every message whose envelope
decodes with `data_version` 1 and whose `data` is an object with `response_bytes_utf8`
the standard base64 encoding of `s`, `processMessage` with a working store acks the
message and a read by the envelope's `(ip, port, service)` then returns one row, with
response `s`. -/
theorem processMessage_v1_stores_decoded (Version : Int) (s : GoString) (msg : Option Json)
    (scan : Scan) (payload : List (GoString × Json)) (db : Table)
    (hU : Unmarshal msg = some scan) (hV : scan.DataVersion = 1)
    (hD : scan.Data = .object payload)
    (hR : mapIndex payload (ascii "response_bytes_utf8") = some (.string (EncodeToString s))) :
    (processMessage Version false msg db).1 = [Signal.Ack] ∧
      (selectByKey (processMessage Version false msg db).2 scan.Ip scan.Port scan.Service).map
        Row.response = [s] := by
  have hN : Spec.normalize scan = some s := by
    simp [Spec.normalize, Spec.decodeV1, hV, hD, hR, DecodeString_EncodeToString]
  rw [processMessage_eq]
  simp only [hU, hN, Bool.false_eq_true, if_false, true_and]
  have := selectByKey_insertOrReplace_same db (rowOf Version scan s)
  simp only [rowOf] at this ⊢
  rw [this]
  rfl

/-- C2, on the message of `TestProcessMessage`: base64 of "Hello, World!" at
192.168.1.1:80/http stores "Hello, World!"; and the base64 of the bytes FF FE, which are
not UTF-8, stores these two bytes. -/
theorem processMessage_v1_stores_decoded_witness :
    Unmarshal testV1 = some ⟨ascii "192.168.1.1", 80, ascii "http", 1700000000, 1,
        v1Payload (EncodeToString (ascii "Hello, World!"))⟩ ∧
      EncodeToString (ascii "Hello, World!") = ascii "SGVsbG8sIFdvcmxkIQ==" ∧
      ((processMessage 0 false testV1 []).1 = [Signal.Ack] ∧
        (selectByKey (processMessage 0 false testV1 []).2 (ascii "192.168.1.1") 80
          (ascii "http")).map Row.response = [ascii "Hello, World!"]) ∧
      ((processMessage 0 false rawBytesV1 []).1 = [Signal.Ack] ∧
        (selectByKey (processMessage 0 false rawBytesV1 []).2 (ascii "192.168.1.1") 80
          (ascii "http")).map Row.response = [[0xFF, 0xFE]]) :=
  ⟨rfl, by decide,
    processMessage_v1_stores_decoded 0 (ascii "Hello, World!") testV1
      ⟨ascii "192.168.1.1", 80, ascii "http", 1700000000, 1,
        v1Payload (EncodeToString (ascii "Hello, World!"))⟩
      [(ascii "response_bytes_utf8", .string (EncodeToString (ascii "Hello, World!")))] []
      rfl rfl rfl rfl,
    processMessage_v1_stores_decoded 0 [0xFF, 0xFE] rawBytesV1
      ⟨ascii "192.168.1.1", 80, ascii "http", 1700000000, 1,
        v1Payload (EncodeToString [0xFF, 0xFE])⟩
      [(ascii "response_bytes_utf8", .string (EncodeToString [0xFF, 0xFE]))] []
      rfl rfl rfl rfl⟩

/-- C3: for every string `s` and every message whose envelope decodes with `data_version`
2 and whose `data` is an object with `response_str` equal to `s`, `processMessage` with a
working store acks the message and a read by the envelope's `(ip, port, service)` then
returns one row, with response `s`. -/
theorem processMessage_v2_stores_verbatim (Version : Int) (s : GoString) (msg : Option Json)
    (scan : Scan) (payload : List (GoString × Json)) (db : Table)
    (hU : Unmarshal msg = some scan) (hV : scan.DataVersion = 2)
    (hD : scan.Data = .object payload)
    (hR : mapIndex payload (ascii "response_str") = some (.string s)) :
    (processMessage Version false msg db).1 = [Signal.Ack] ∧
      (selectByKey (processMessage Version false msg db).2 scan.Ip scan.Port scan.Service).map
        Row.response = [s] := by
  have hN : Spec.normalize scan = some s := by
    simp [Spec.normalize, Spec.decodeV2, hV, hD, hR]
  rw [processMessage_eq]
  simp only [hU, hN, Bool.false_eq_true, if_false, true_and]
  have := selectByKey_insertOrReplace_same db (rowOf Version scan s)
  simp only [rowOf] at this ⊢
  rw [this]
  rfl

/-- C3, on the message of `TestProcessMessage`: `response_str` "SSL Handshake" at
192.168.1.2:443/https stores "SSL Handshake". -/
theorem processMessage_v2_stores_verbatim_witness :
    Unmarshal testV2 = some ⟨ascii "192.168.1.2", 443, ascii "https", 1700000000, 2,
        v2Payload (ascii "SSL Handshake")⟩ ∧
      (processMessage 0 false testV2 []).1 = [Signal.Ack] ∧
      (selectByKey (processMessage 0 false testV2 []).2 (ascii "192.168.1.2") 443
        (ascii "https")).map Row.response = [ascii "SSL Handshake"] :=
  ⟨rfl, processMessage_v2_stores_verbatim 0 (ascii "SSL Handshake") testV2
    ⟨ascii "192.168.1.2", 443, ascii "https", 1700000000, 2, v2Payload (ascii "SSL Handshake")⟩
    [(ascii "response_str", .string (ascii "SSL Handshake"))] [] rfl rfl rfl rfl⟩

/-- C4: a message whose envelope decodes with a `data_version` other than 1 and 2, or
whose body is an object with no member for `data_version` (the field is then 0), is
nacked and not acked, and the table is left as it was, whatever `data` holds and whether
or not the store works. -/
theorem processMessage_unknown_version (Version : Int) (fault : Bool) (msg : Option Json)
    (db : Table)
    (h : (∃ scan, Unmarshal msg = some scan ∧ scan.DataVersion ≠ 1 ∧ scan.DataVersion ≠ 2) ∨
      (∃ members, msg = some (.object members) ∧
        ∀ kv ∈ members, fieldFor kv.1 ≠ some .data_version)) :
    processMessage Version fault msg db = ([Signal.Nack], db) := by
  rw [processMessage_eq]
  rcases h with ⟨scan, hU, h1, h2⟩ | ⟨members, hm, hno⟩
  · simp [hU, Spec.normalize, h1, h2]
  · cases hU : Unmarshal msg with
    | none => rfl
    | some scan =>
      have h0 : scan.DataVersion = 0 := by
        rw [hm] at hU
        exact Unmarshal_absent_data_version members scan hU hno
      simp [Spec.normalize, h0]

/-- C4, on a body with `data_version` 3 and on a body without `data_version`, both with a
payload a decoder would accept: nacked, the table unchanged. -/
theorem processMessage_unknown_version_witness :
    (∀ kv ∈ membersWithoutVersion, fieldFor kv.1 ≠ some .data_version) ∧
      processMessage 0 false (some (.object membersWithoutVersion)) oneRowTable =
        ([Signal.Nack], oneRowTable) ∧
      processMessage 0 false envelopeVersion3 oneRowTable = ([Signal.Nack], oneRowTable) :=
  ⟨by decide,
    processMessage_unknown_version 0 false (some (.object membersWithoutVersion)) oneRowTable
      (Or.inr ⟨membersWithoutVersion, rfl, by decide⟩),
    processMessage_unknown_version 0 false envelopeVersion3 oneRowTable
      (Or.inl ⟨⟨ascii "10.0.0.1", 22, ascii "ssh", 2000, 3, v2Payload (ascii "banner text")⟩,
        rfl, by decide, by decide⟩)⟩

/-- C5: a message whose envelope decodes with `data_version` 1 and whose `data` is not an
object, or has no `response_bytes_utf8`, or one that is not a string, or a string that
`base64.StdEncoding` rejects, and a message whose envelope decodes with `data_version` 2
and whose `data` is not an object or has no `response_str` or one that is not a string,
is nacked and not acked, and the table, so every row read by a key, is as before. -/
theorem processMessage_decoder_failure (Version : Int) (fault : Bool) (msg : Option Json)
    (scan : Scan) (db : Table) (hU : Unmarshal msg = some scan)
    (h : (scan.DataVersion = 1 ∧
          ((∀ fields, scan.Data ≠ .object fields) ∨
            ∃ fields, scan.Data = .object fields ∧
              (mapIndex fields (ascii "response_bytes_utf8") = none ∨
                (∃ v, mapIndex fields (ascii "response_bytes_utf8") = some v ∧
                  ∀ s, v ≠ .string s) ∨
                ∃ s, mapIndex fields (ascii "response_bytes_utf8") = some (.string s) ∧
                  DecodeString s = none))) ∨
        (scan.DataVersion = 2 ∧
          ((∀ fields, scan.Data ≠ .object fields) ∨
            ∃ fields, scan.Data = .object fields ∧
              (mapIndex fields (ascii "response_str") = none ∨
                ∃ v, mapIndex fields (ascii "response_str") = some v ∧ ∀ s, v ≠ .string s)))) :
    processMessage Version fault msg db = ([Signal.Nack], db) ∧
      ∀ ip port service,
        selectByKey (processMessage Version fault msg db).2 ip port service =
          selectByKey db ip port service := by
  have hN : Spec.normalize scan = none := by
    rcases h with ⟨hV, hbad⟩ | ⟨hV, hbad⟩
    · simp only [Spec.normalize, hV, if_true, Spec.decodeV1]
      rcases hbad with hno | ⟨fields, hD, hnone | ⟨v, hv, hns⟩ | ⟨s, hs, hdec⟩⟩
      · split
        · rename_i fields heq; exact absurd heq (hno fields)
        · rfl
      · simp [hD, hnone]
      · rw [hD]
        simp only [hv]
        split
        · rename_i s heq
          simp only [Option.some.injEq] at heq
          exact absurd heq (hns s)
        · rfl
      · simp [hD, hs, hdec]
    · simp only [Spec.normalize, hV, Spec.decodeV2]
      rcases hbad with hno | ⟨fields, hD, hnone | ⟨v, hv, hns⟩⟩
      · simp only [show ¬((2 : Int) = 1) by decide, if_false, if_true]
      · simp [hD, hnone]
      · rw [hD]
        simp only [hv, show ¬((2 : Int) = 1) by decide, if_false, if_true]
        split
        · rename_i s heq
          simp only [Option.some.injEq] at heq
          exact absurd heq (hns s)
        · rfl
  have hP : processMessage Version fault msg db = ([Signal.Nack], db) := by
    rw [processMessage_eq]
    simp only [hU, hN]
  exact ⟨hP, fun ip port service => by rw [hP]⟩

/-- C5, on a V1 body whose `response_bytes_utf8` is "not base64!", with a row already
stored for its key: nacked, the row still there. -/
theorem processMessage_decoder_failure_witness :
    DecodeString (ascii "not base64!") = none ∧
      processMessage 0 false envelopeBadBase64 oneRowTable = ([Signal.Nack], oneRowTable) ∧
      selectByKey (processMessage 0 false envelopeBadBase64 oneRowTable).2
        (ascii "192.168.1.1") 80 (ascii "http") = oneRowTable :=
  have h := processMessage_decoder_failure 0 false envelopeBadBase64
    ⟨ascii "192.168.1.1", 80, ascii "http", 3000, 1, v1Payload (ascii "not base64!")⟩
    oneRowTable rfl
    (Or.inl ⟨rfl, Or.inr ⟨[(ascii "response_bytes_utf8", .string (ascii "not base64!"))], rfl,
      Or.inr (Or.inr ⟨ascii "not base64!", rfl, by decide⟩)⟩⟩)
  ⟨by decide, h.1, (h.2 (ascii "192.168.1.1") 80 (ascii "http")).trans rfl⟩

/-- C6, as stated, fails: the body `{"data_version": 2, "data": {"response_str":
"banner text"}}` has no `ip`, `port` or `service`, yet on the empty table it is acked and
the row `("", 0, "", Version, 0, "banner text")` is written, whatever the constant
`Version` is. -/
theorem envelope_without_ip_not_nacked :
    ¬∃ Version : Int,
      processMessage Version false envelopeWithoutIp (initializeDatabase none) ≠
        ([Signal.Ack], [⟨[], 0, [], Version, 0, ascii "banner text"⟩]) := by
  rintro ⟨Version, h⟩
  exact h rfl

/-- C6, amended: a body that is not a JSON object (not JSON at all, or `null`, a number,
a string, a boolean or an array), or an object in which a member for one of the required
fields `ip`, `port`, `service`, `data_version` holds a value of the wrong shape, or an
object with no member for `data_version`, is nacked and nothing is written; an object
without a member for `ip`, `port` or `service` is not rejected for that: when it decodes,
the field has its zero value, the empty string or 0. -/
theorem processMessage_malformed_envelope (Version : Int) (fault : Bool) (msg : Option Json)
    (db : Table) :
    (((∀ members, msg ≠ some (.object members)) ∨
        ∃ members, msg = some (.object members) ∧
          ((∃ kv ∈ members, ∃ f, fieldFor kv.1 = some f ∧ f.required = true ∧
              Spec.wrongShape f kv.2 = true) ∨
            ∀ kv ∈ members, fieldFor kv.1 ≠ some .data_version)) →
        processMessage Version fault msg db = ([Signal.Nack], db)) ∧
      ∀ members scan, msg = some (.object members) → Unmarshal msg = some scan →
        ((∀ kv ∈ members, fieldFor kv.1 ≠ some .ip) → scan.Ip = []) ∧
          ((∀ kv ∈ members, fieldFor kv.1 ≠ some .port) → scan.Port = 0) ∧
          ((∀ kv ∈ members, fieldFor kv.1 ≠ some .service) → scan.Service = []) := by
  constructor
  · intro h
    rcases h with hno | ⟨members, hm, hbad | habsent⟩
    · rw [processMessage_eq]
      cases msg with
      | none => rfl
      | some v =>
        cases v with
        | object members => exact absurd rfl (hno members)
        | null => simp [Unmarshal, Spec.normalize, Scan.zero]
        | _ => rfl
    · rw [processMessage_eq]
      obtain ⟨kv, hkv, f, hf, _, hw⟩ := hbad
      have hU : Unmarshal msg = none := by
        rw [hm]
        exact decodeObject_wrongShape members Scan.zero ⟨kv, hkv, f, hf, hw⟩
      simp only [hU]
    · rw [processMessage_eq]
      cases hU : Unmarshal msg with
      | none => rfl
      | some scan =>
        have h0 : scan.DataVersion = 0 := by
          rw [hm] at hU
          exact Unmarshal_absent_data_version members scan hU habsent
        simp [Spec.normalize, h0]
  · intro members scan hm hU
    rw [hm] at hU
    exact Unmarshal_absent_key members scan hU

/-- C6 amended, on a body that is not JSON and on a body whose `port` is the string "80":
nacked, the table unchanged; and on the body without `ip`, `port` and `service`, which
decodes with `Ip` empty. -/
theorem processMessage_malformed_envelope_witness :
    processMessage 0 false none oneRowTable = ([Signal.Nack], oneRowTable) ∧
      fieldFor (ascii "port") = some .port ∧
      Spec.wrongShape .port (.string (ascii "80")) = true ∧
      processMessage 0 false (some (.object membersPortString)) oneRowTable =
        ([Signal.Nack], oneRowTable) ∧
      (Unmarshal envelopeWithoutIp).map Scan.Ip = some [] :=
  ⟨(processMessage_malformed_envelope 0 false none oneRowTable).1
      (Or.inl fun _ hc => Option.noConfusion hc),
    by decide, by decide,
    (processMessage_malformed_envelope 0 false (some (.object membersPortString))
        oneRowTable).1
      (Or.inr ⟨membersPortString, rfl,
        Or.inl ⟨(ascii "port", .string (ascii "80")), by simp [membersPortString], .port,
          by decide, rfl, by decide⟩⟩),
    congrArg (Option.some)
      (((processMessage_malformed_envelope 0 false envelopeWithoutIp []).2
        [(ascii "data_version", .number (.int false 2)),
          (ascii "data", v2Payload (ascii "banner text"))]
        ⟨[], 0, [], 0, 2, v2Payload (ascii "banner text")⟩ rfl rfl).1 (by decide))⟩

/-- C7: for two accepted messages with the same `(ip, port, service)`, processing the
first and then the second leaves the table that processing the second alone leaves, so
the read by that key returns the same single row, whose `last_scanned` is the second
timestamp whatever the first one was; and processing a message `n ≥ 1` times leaves the
table that processing it once leaves. -/
theorem processMessage_last_writer_wins (Version : Int) (m1 m2 : Option Json) (s1 s2 : Scan)
    (db : Table) (h1 : Unmarshal m1 = some s1) (h2 : Unmarshal m2 = some s2)
    (hk : (s1.Ip, s1.Port, s1.Service) = (s2.Ip, s2.Port, s2.Service))
    (ha1 : (processMessage Version false m1 db).1 = [Signal.Ack])
    (ha2 : (processMessage Version false m2 db).1 = [Signal.Ack]) :
    (processMessage Version false m2 (processMessage Version false m1 db).2).2 =
        (processMessage Version false m2 db).2 ∧
      selectByKey (processMessage Version false m2 (processMessage Version false m1 db).2).2
          s2.Ip s2.Port s2.Service =
        selectByKey (processMessage Version false m2 db).2 s2.Ip s2.Port s2.Service ∧
      (selectByKey (processMessage Version false m2 (processMessage Version false m1 db).2).2
          s2.Ip s2.Port s2.Service).map Row.last_scanned = [s2.Timestamp] ∧
      ∀ n, 1 ≤ n →
        (fun t => (processMessage Version false m2 t).2)^[n] db =
          (processMessage Version false m2 db).2 := by
  obtain ⟨s1', r1, hU1, _, _, hp1⟩ := processMessage_of_ack Version false m1 db ha1
  obtain ⟨s2', r2, hU2, _, _, hp2⟩ := processMessage_of_ack Version false m2 db ha2
  rw [h1] at hU1
  rw [h2] at hU2
  cases hU1
  cases hU2
  have hboth : (processMessage Version false m2 (processMessage Version false m1 db).2).2 =
      (processMessage Version false m2 db).2 := by
    rw [hp1 db, hp2 db, hp2]
    exact insertOrReplace_overwrite db _ _ hk
  refine ⟨hboth, by rw [hboth], ?_, ?_⟩
  · rw [hboth, hp2 db]
    have := selectByKey_insertOrReplace_same db (rowOf Version s2 r2)
    simp only [rowOf] at this ⊢
    rw [this]
    rfl
  · intro n hn
    induction n with
    | zero => omega
    | succ k ih =>
      rcases Nat.eq_zero_or_pos k with hk0 | hkpos
      · subst hk0
        rfl
      · rw [Function.iterate_succ_apply', ih hkpos]
        simp only [hp2]
        exact insertOrReplace_overwrite db _ _ rfl

/-- C7, on two deliveries for 192.168.1.1:80/http, timestamp 1000 then timestamp 500:
the row left is the one of the second delivery, `last_scanned` 500 and response
"second"; three deliveries of the second leave the same table as one. -/
theorem processMessage_last_writer_wins_witness :
    (processMessage 0 false firstDelivery oneRowTable).1 = [Signal.Ack] ∧
      (processMessage 0 false secondDelivery oneRowTable).1 = [Signal.Ack] ∧
      selectByKey
          (processMessage 0 false secondDelivery
            (processMessage 0 false firstDelivery oneRowTable).2).2
          (ascii "192.168.1.1") 80 (ascii "http") =
        [⟨ascii "192.168.1.1", 80, ascii "http", 0, 500, ascii "second"⟩] ∧
      (fun t => (processMessage 0 false secondDelivery t).2)^[3] oneRowTable =
        (processMessage 0 false secondDelivery oneRowTable).2 :=
  have h := processMessage_last_writer_wins 0 firstDelivery secondDelivery
    ⟨ascii "192.168.1.1", 80, ascii "http", 1000, 2, v2Payload (ascii "first")⟩
    ⟨ascii "192.168.1.1", 80, ascii "http", 500, 1, v1Payload (ascii "c2Vjb25k")⟩
    oneRowTable rfl rfl rfl rfl rfl
  ⟨rfl, rfl, h.2.1.trans rfl, h.2.2.2 3 (by decide)⟩

/-- C8: for every body, table and store behaviour `processMessage` sends exactly one
signal, Ack or Nack; it is Ack exactly when the envelope decodes, the normalizer of the
specification yields a response for it and the insert statement succeeds, the table
afterwards being the one the statement produced; and a failing insert statement gives
Nack. -/
theorem processMessage_ack_iff_applied (Version : Int) (fault : Bool) (msg : Option Json)
    (db : Table) :
    ((processMessage Version fault msg db).1 = [Signal.Ack] ∨
        (processMessage Version fault msg db).1 = [Signal.Nack]) ∧
      ((processMessage Version fault msg db).1 = [Signal.Ack] ↔
        ∃ scan response, Unmarshal msg = some scan ∧ Spec.normalize scan = some response ∧
          Exec fault db (rowOf Version scan response) =
            some (processMessage Version fault msg db).2) ∧
      (fault = true → (processMessage Version fault msg db).1 = [Signal.Nack]) := by
  refine ⟨?_, ?_, ?_⟩
  · rcases processMessage_cases Version fault msg db with hn | ⟨_, _, _, _, _, ha⟩
    · exact Or.inr (by rw [hn])
    · exact Or.inl (by rw [ha])
  · constructor
    · intro h
      obtain ⟨scan, response, hU, hN, hf, hp⟩ := processMessage_of_ack Version fault msg db h
      refine ⟨scan, response, hU, hN, ?_⟩
      rw [hp db, hf]
      rfl
    · rintro ⟨scan, response, hU, hN, hE⟩
      rw [processMessage_eq]
      cases fault with
      | true => simp [Exec] at hE
      | false => simp only [hU, hN, Bool.false_eq_true, if_false]
  · intro hf
    rcases processMessage_cases Version fault msg db with hn | ⟨_, _, _, _, hff, _⟩
    · rw [hn]
    · rw [hf] at hff
      exact absurd hff (by decide)

/-- C9: starting from the empty table of `initializeDatabase`, after any finite sequence
of deliveries, handled in order, a read by any key returns at most one row, and it
returns a row if and only if some delivery of the sequence was acked and its envelope
has that `(ip, port, service)`. -/
theorem receiveMessages_one_row_per_key (Version : Int) (ds : List Delivery) :
    (∀ ip port service,
        (selectByKey (receiveMessages Version ds (initializeDatabase none)).2
          ip port service).length ≤ 1) ∧
      ∀ ip port service,
        selectByKey (receiveMessages Version ds (initializeDatabase none)).2
            ip port service ≠ [] ↔
          ∃ p ∈ ds.zip (receiveMessages Version ds (initializeDatabase none)).1,
            p.2 = [Signal.Ack] ∧
              ∃ scan, Unmarshal p.1.body = some scan ∧
                (scan.Ip, scan.Port, scan.Service) = (ip, port, service) := by
  constructor
  · exact receiveMessages_unique Version ds (initializeDatabase none)
      (fun ip port service => by simp [initializeDatabase, selectByKey])
  · intro ip port service
    rw [receiveMessages_row_iff]
    simp [initializeDatabase, selectByKey]

/-- C10: `processMessage` leaves the rows of every key other than the message's
`(ip, port, service)` as they were, whether it acks or nacks; a nacked message leaves the
whole table as it was, so the deliveries that follow it produce the signals and the table
they produce without it. -/
theorem processMessage_frame (Version : Int) (fault : Bool) (msg : Option Json) (db : Table) :
    (∀ ip port service,
        (∀ scan, Unmarshal msg = some scan →
          (scan.Ip, scan.Port, scan.Service) ≠ (ip, port, service)) →
        selectByKey (processMessage Version fault msg db).2 ip port service =
          selectByKey db ip port service) ∧
      ((processMessage Version fault msg db).1 = [Signal.Nack] →
        (processMessage Version fault msg db).2 = db ∧
          ∀ rest, receiveMessages Version (⟨fault, msg⟩ :: rest) db =
            ([Signal.Nack] :: (receiveMessages Version rest db).1,
              (receiveMessages Version rest db).2)) := by
  constructor
  · intro ip port service hne
    rcases processMessage_cases Version fault msg db with hn | ⟨scan, response, hU, _, _, ha⟩
    · rw [hn]
    · rw [ha]
      exact selectByKey_insertOrReplace_other db (rowOf Version scan response) ip port service
        (hne scan hU)
  · intro h
    have hp := processMessage_of_nack Version fault msg db h
    refine ⟨by rw [hp], fun rest => ?_⟩
    simp only [receiveMessages, hp]

/-- C10, on the table with a row for 192.168.1.1:80/http: the acked second scenario
(10.0.0.1:22/ssh) leaves that row as it was, and the nacked body with `data_version` 3
changes nothing for the delivery that follows it. -/
theorem processMessage_frame_witness :
    selectByKey (processMessage 0 false scenarioV2 oneRowTable).2
        (ascii "192.168.1.1") 80 (ascii "http") = oneRowTable ∧
      (processMessage 0 false envelopeVersion3 oneRowTable).1 = [Signal.Nack] ∧
      receiveMessages 0 [⟨false, envelopeVersion3⟩, ⟨false, scenarioV2⟩] oneRowTable =
        ([Signal.Nack] :: (receiveMessages 0 [⟨false, scenarioV2⟩] oneRowTable).1,
          (receiveMessages 0 [⟨false, scenarioV2⟩] oneRowTable).2) :=
  ⟨((processMessage_frame 0 false scenarioV2 oneRowTable).1 (ascii "192.168.1.1") 80
      (ascii "http") (fun scan h => by
        have hs : scan = ⟨ascii "10.0.0.1", 22, ascii "ssh", 2000, 2,
            v2Payload (ascii "banner text")⟩ :=
          Option.some.inj (h.symm.trans rfl)
        rw [hs]
        decide)).trans rfl,
    rfl,
    ((processMessage_frame 0 false envelopeVersion3 oneRowTable).2 rfl).2
      [⟨false, scenarioV2⟩]⟩

end MiniScan
